import Mathlib

/-!
Verification development for the dbc2xl repository: a shallow embedding of
the domain transformation layer (DBC network to tabular export), covering
the adapter in adapters/dbc_parser_cantools.py, the data model in
domain/models.py, the formatting helpers in utils/formatting.py, the
writer in adapters/excel_writer_openpyxl.py, and the use case in
use_cases/convert.py.
-/

namespace Dbc2xl

/-- Model of the dynamically typed Python values the adapter receives from
the external DBC library: None, int, str, bool, and (possibly nested)
lists.  Floats are not modelled; no verified claim depends on float
arithmetic. -/
inductive PyVal where
  | none
  | int (n : Int)
  | str (s : String)
  | bool (b : Bool)
  | list (xs : List PyVal)

/-- Python repr of a value, used when a list is stringified; string
elements are quoted (escaping inside the quotes is not modelled). -/
def pyRepr : PyVal → String
  | .none => "None"
  | .int n => toString n
  | .bool true => "True"
  | .bool false => "False"
  | .str s => "'" ++ s ++ "'"
  | .list xs => "[" ++ String.intercalate ", " (xs.attach.map (fun x => pyRepr x.1)) ++ "]"
decreasing_by
  simp only [PyVal.list.sizeOf_spec]
  have h1 : sizeOf x.1 < sizeOf xs := List.sizeOf_lt_of_mem x.2
  omega

/-- Python str of a value.  On scalars this is a plain match, so concrete
scalar applications reduce definitionally. -/
def pyStr : PyVal → String
  | .none => "None"
  | .int n => toString n
  | .bool true => "True"
  | .bool false => "False"
  | .str s => s
  | .list xs => pyRepr (.list xs)

/-- Surrounding whitespace strip on a character list, as Python int(str)
performs before parsing. -/
def pyTrimList (cs : List Char) : List Char :=
  ((cs.dropWhile Char.isWhitespace).reverse.dropWhile Char.isWhitespace).reverse

/-- Accumulating decimal parse; fails on the first non-digit. -/
def digitsToNatAux : List Char → Nat → Option Nat
  | [], acc => some acc
  | c :: ds, acc =>
    if c.isDigit then digitsToNatAux ds (acc * 10 + (c.toNat - 48)) else Option.none

/-- Decimal parse of a nonempty digit string. -/
def digitsToNat : List Char → Option Nat
  | [] => Option.none
  | ds => digitsToNatAux ds 0

/-- Python int(str): optional surrounding whitespace, optional sign, then
a nonempty run of decimal digits (digit-group underscores are not
modelled). -/
def pyIntOfStr (s : String) : Option Int :=
  match pyTrimList s.toList with
  | '-' :: ds => (digitsToNat ds).map (fun n => -(n : Int))
  | '+' :: ds => (digitsToNat ds).map (fun n => (n : Int))
  | ds => (digitsToNat ds).map (fun n => (n : Int))

/-- Python int(x) coercion as the adapter relies on it: succeeds on ints,
bools and integer-formatted strings, fails on None and lists, yielding
none where Python raises. -/
def pyInt : PyVal → Option Int
  | .int n => some n
  | .bool b => some (if b then 1 else 0)
  | .str s => pyIntOfStr s
  | _ => Option.none

/-- Model of a Python attribute that is expected to hold a dict: either it
is a dict with insertion-ordered entries, or it is absent / not a dict
(the two are indistinguishable to the adapter, which checks isinstance). -/
inductive PyDict (κ : Type) where
  | notDict
  | dict (entries : List (κ × PyVal))

end Dbc2xl

namespace Dbc2xl

/-! Export data model, from domain/models.py.  Mappings are modelled as
insertion-ordered association lists, matching Python dict iteration. -/

structure NodeExport where
  name : String
  comment : Option String
  attributes : List (String × PyVal)

structure MessageExport where
  name : String
  frame_id : Int
  frame_id_hex : String
  is_extended_frame : Option Bool
  length : Int
  cycle_time_ms : Option Int
  senders : List String
  comment : Option String
  attributes : List (String × PyVal)

structure SignalExport where
  message_name : String
  message_frame_id : Int
  message_frame_id_hex : String
  name : String
  start : Int
  length : Int
  byte_order : Option String
  is_signed : Option Bool
  is_float : Option Bool
  factor : PyVal
  offset : PyVal
  minimum : PyVal
  maximum : PyVal
  unit : PyVal
  receivers : List String
  comment : Option String
  is_multiplexer : Option Bool
  multiplexer_ids : Option (List Int)
  multiplexer_signal : Option String
  choices : List (Int × String)
  attributes : List (String × PyVal)

structure AttributeExport where
  scope : String
  owner : String
  key : String
  value : PyVal

structure DbcExport where
  nodes : List NodeExport
  messages : List MessageExport
  signals : List SignalExport
  attributes : List AttributeExport

/-! Formatting helpers, from utils/formatting.py. -/

/-- Uppercase hexadecimal digit character for a value below 16. -/
def hexDigitU (n : Nat) : Char :=
  if n < 10 then Char.ofNat (48 + n) else Char.ofNat (55 + n)

/-- Most significant first hexadecimal digits of n, empty for 0; the fuel
argument (any bound at least n) makes the recursion structural. -/
def natToHexAux : Nat → Nat → List Char
  | 0, _ => []
  | fuel + 1, n =>
    if n = 0 then [] else natToHexAux fuel (n / 16) ++ [hexDigitU (n % 16)]

/-- Uppercase hexadecimal digits of n with no leading zeros, as Python
format spec X produces. -/
def natToHex (n : Nat) : List Char :=
  if n = 0 then ['0'] else natToHexAux n n

/-- frame_id_hex from utils/formatting.py: 0x followed by uppercase hex
digits (Python f-string 0x{frame_id:X}; a negative value renders with the
sign between 0x and the digits, as Python does). -/
def frame_id_hex (frame_id : Int) : String :=
  if frame_id < 0 then "0x-" ++ String.mk (natToHex frame_id.natAbs)
  else "0x" ++ String.mk (natToHex frame_id.toNat)

/-- stringify_choices from utils/formatting.py: entries sorted by integer
key ascending, rendered k=v and joined by a semicolon and space.  Python
sorted with a key function is stable; insertionSort is the matching stable
sort. -/
def stringify_choices (choices : List (Int × String)) : String :=
  String.intercalate "; "
    ((List.insertionSort (fun a b => a.1 ≤ b.1) choices).map
      (fun kv => toString kv.1 ++ "=" ++ kv.2))

/-- safe_str from utils/formatting.py, at the values stored in attribute
mappings and pass-through fields. -/
def safe_str (v : PyVal) : String :=
  match v with
  | .none => ""
  | w => pyStr w

/-- safe_str from utils/formatting.py, at optional-string fields (comments
and similar), where the adapter already produced an Option String. -/
def safe_str_opt (v : Option String) : String :=
  match v with
  | Option.none => ""
  | some s => s

/-! Adapter helpers, from adapters/dbc_parser_cantools.py (leading
underscores of the Python names dropped). -/

/-- get_comment: None stays absent; anything else is stringified and
trimmed, and an empty result is treated as absent (Python truthiness of
the stripped string). -/
def get_comment (c : PyVal) : Option String :=
  match c with
  | .none => Option.none
  | v =>
    let s := (pyStr v).trim
    if s = "" then Option.none else some s

/-- get_attributes: a dict passes through unchanged, anything else (absent
or not a dict) yields the empty mapping. -/
def get_attributes (attrs : PyDict String) : List (String × PyVal) :=
  match attrs with
  | .dict es => es
  | .notDict => []

/-- as_list: None yields the empty list, a list is stringified
elementwise, and a scalar becomes a one-element list of its string. -/
def as_list (v : PyVal) : List String :=
  match v with
  | .none => []
  | .list xs => xs.map pyStr
  | w => [pyStr w]

/-- Insert-or-update for an integer-keyed dict built by the choices loop:
an existing key keeps its position and gets the new value, a new key is
appended, matching Python dict assignment. -/
def insertChoice (m : List (Int × String)) (k : Int) (v : String) :
    List (Int × String) :=
  if m.any (fun p => p.1 == k) then
    m.map (fun p => if p.1 == k then (k, v) else p)
  else m ++ [(k, v)]

/-- signal_choices: keys that coerce to int are kept (stringified values),
keys that do not are silently dropped; a non-dict source yields the empty
mapping. -/
def signal_choices (choices : PyDict PyVal) : List (Int × String) :=
  match choices with
  | .dict entries =>
    entries.foldl
      (fun out kv =>
        match pyInt kv.1 with
        | some ik => insertChoice out ik (pyStr kv.2)
        | Option.none => out)
      []
  | .notDict => []

/-- multiplexer_ids: None stays absent; a list keeps the int-coercible
elements (failures skipped); a scalar becomes a one-element list when
coercible and absent otherwise. -/
def multiplexer_ids (mids : PyVal) : Option (List Int) :=
  match mids with
  | .none => Option.none
  | .list xs => some (xs.filterMap pyInt)
  | v =>
    match pyInt v with
    | some i => some [i]
    | Option.none => Option.none

/-- The inline tri-state normalization the adapter applies to the
boolean-like fields (is_extended_frame, is_signed, is_float,
is_multiplexer): a value whose underlying type is not bool becomes
unknown, never false. -/
def coerceBool (v : PyVal) : Option Bool :=
  match v with
  | .bool b => some b
  | _ => Option.none

end Dbc2xl

namespace Dbc2xl

/-! Raw network model: the shape of the object graph the external cantools
library hands the adapter.  Fields the library guarantees to be of a fixed
type (names, frame ids, byte counts, bit positions) are typed concretely;
every field the adapter defends against is a PyVal or PyDict. -/

structure RawNode where
  name : String
  comment : PyVal
  attributes : PyDict String

structure RawSignal where
  name : String
  start : Int
  length : Int
  byte_order : PyVal
  is_signed : PyVal
  is_float : PyVal
  scale : PyVal
  offset : PyVal
  minimum : PyVal
  maximum : PyVal
  unit : PyVal
  receivers : PyVal
  comment : PyVal
  is_multiplexer : PyVal
  multiplexer_ids : PyVal
  multiplexer_signal : Option String
  choices : PyDict PyVal
  attributes : PyDict String

structure RawMessage where
  frame_id : Int
  name : String
  is_extended_frame : PyVal
  cycle_time : PyVal
  senders : PyVal
  length : Int
  comment : PyVal
  attributes : PyDict String
  signals : List RawSignal

structure RawDb where
  nodes : List RawNode
  messages : List RawMessage

/-! CantoolsDbcParser.parse, from adapters/dbc_parser_cantools.py,
translated loop by loop: the three output lists are accumulated exactly as
the source appends to them. -/

/-- The NodeExport built for one raw node. -/
def parseNode (n : RawNode) : NodeExport :=
  { name := n.name
    comment := get_comment n.comment
    attributes := get_attributes n.attributes }

/-- The MessageExport built for one raw message (the in-loop block of
parse): tri-state extended-frame flag, guarded int coercion for the cycle
time, list coercion for senders. -/
def parseMessage (m : RawMessage) : MessageExport :=
  { name := m.name
    frame_id := m.frame_id
    frame_id_hex := frame_id_hex m.frame_id
    is_extended_frame := coerceBool m.is_extended_frame
    length := m.length
    cycle_time_ms := pyInt m.cycle_time
    senders := as_list m.senders
    comment := get_comment m.comment
    attributes := get_attributes m.attributes }

/-- The SignalExport built for one raw signal (the inner-loop block of
parse). -/
def parseSignal (msg_name : String) (fid : Int) (s : RawSignal) : SignalExport :=
  { message_name := msg_name
    message_frame_id := fid
    message_frame_id_hex := frame_id_hex fid
    name := s.name
    start := s.start
    length := s.length
    byte_order := match s.byte_order with | .none => Option.none | v => some (pyStr v)
    is_signed := coerceBool s.is_signed
    is_float := coerceBool s.is_float
    factor := s.scale
    offset := s.offset
    minimum := s.minimum
    maximum := s.maximum
    unit := s.unit
    receivers := as_list s.receivers
    comment := get_comment s.comment
    is_multiplexer := coerceBool s.is_multiplexer
    multiplexer_ids := multiplexer_ids s.multiplexer_ids
    multiplexer_signal := s.multiplexer_signal
    choices := signal_choices s.choices
    attributes := get_attributes s.attributes }

/-- Flattened attribute records for one message, scope message, owner the
message name. -/
def messageAttrExports (msg_name : String) (attrs : List (String × PyVal)) :
    List AttributeExport :=
  attrs.map (fun kv => { scope := "message", owner := msg_name, key := kv.1, value := kv.2 })

/-- Flattened attribute records for one signal, scope signal, owner the
Message.Signal composite. -/
def signalAttrExports (msg_name sig_name : String) (attrs : List (String × PyVal)) :
    List AttributeExport :=
  attrs.map (fun kv =>
    { scope := "signal", owner := msg_name ++ "." ++ sig_name, key := kv.1, value := kv.2 })

/-- Flattened attribute records for one node, scope node, owner the node
name (the final loop of parse, running over the built NodeExports). -/
def nodeAttrExports (n : NodeExport) : List AttributeExport :=
  n.attributes.map (fun kv =>
    { scope := "node", owner := n.name, key := kv.1, value := kv.2 })

/-- Inner loop of parse: append the SignalExport, then its flattened
attributes. -/
def processSignal (msg_name : String) (fid : Int)
    (acc : List SignalExport × List AttributeExport) (s : RawSignal) :
    List SignalExport × List AttributeExport :=
  let se := parseSignal msg_name fid s
  (acc.1 ++ [se], acc.2 ++ signalAttrExports msg_name se.name se.attributes)

/-- Outer loop body of parse: append the MessageExport, its flattened
attributes, then run the signal loop. -/
def processMessage
    (acc : List MessageExport × List SignalExport × List AttributeExport)
    (m : RawMessage) :
    List MessageExport × List SignalExport × List AttributeExport :=
  let me := parseMessage m
  let attrs1 := acc.2.2 ++ messageAttrExports m.name (get_attributes m.attributes)
  let inner := m.signals.foldl (processSignal m.name m.frame_id) (acc.2.1, attrs1)
  (acc.1 ++ [me], inner.1, inner.2)

/-- CantoolsDbcParser.parse: nodes first, then the message/signal pass,
then node attributes flattened last. -/
def parse (db : RawDb) : DbcExport :=
  let nodes := db.nodes.map parseNode
  let acc := db.messages.foldl processMessage ([], [], [])
  { nodes := nodes
    messages := acc.1
    signals := acc.2.1
    attributes := acc.2.2 ++ nodes.foldl (fun a n => a ++ nodeAttrExports n) [] }

end Dbc2xl

namespace Dbc2xl

/-! Writer, from adapters/excel_writer_openpyxl.py.  A sheet is a list of
rows; a cell is a string or an int (the two value shapes the writer
appends for the sheets modelled here). -/

/-- One spreadsheet cell as appended by the writer. -/
inductive Cell where
  | str (s : String)
  | int (n : Int)
deriving DecidableEq

/-- The string openpyxl-side autosizing measures for a cell: str(value)
in the source; an int cell renders in decimal. -/
def cellStr : Cell → String
  | .str s => s
  | .int n => toString n

/-- Stringified length of a cell, the quantity the autosize loop measures. -/
def cellLen (c : Cell) : Nat := (cellStr c).length

/-- bool_str from the writer: tri-state rendering, blank for unknown. -/
def bool_str (v : Option Bool) : String :=
  match v with
  | Option.none => ""
  | some b => if b then "Yes" else "No"

/-- The Key=Value; rendering of an attribute mapping, sorted by key (the
sorted call in the writer; dict keys are unique so the tuple comparison
never reaches the values). -/
def attrs_string (attrs : List (String × PyVal)) : String :=
  String.intercalate "; "
    ((List.insertionSort (fun a b => a.1 ≤ b.1) attrs).map
      (fun kv => kv.1 ++ "=" ++ safe_str kv.2))

/-- Header row of the Messages sheet. -/
def messagesHeaders : List String :=
  ["Message Name", "Frame ID (Hex)", "Frame ID (Dec)", "Extended Frame",
   "DLC/Length", "Cycle Time (ms)", "Senders (Origin Nodes)", "Comment",
   "Attributes (Key=Value; ...)"]

/-- One data row of the Messages sheet. -/
def messageRow (m : MessageExport) : List Cell :=
  [Cell.str m.name,
   Cell.str m.frame_id_hex,
   Cell.int m.frame_id,
   Cell.str (bool_str m.is_extended_frame),
   Cell.int m.length,
   (match m.cycle_time_ms with
    | Option.none => Cell.str ""
    | some t => Cell.int t),
   Cell.str (String.intercalate ", " m.senders),
   Cell.str (safe_str_opt m.comment),
   Cell.str (attrs_string m.attributes)]

/-- All data rows of the Messages sheet. -/
def messageRows (messages : List MessageExport) : List (List Cell) :=
  messages.map messageRow

/-- Header row of the Attributes sheet. -/
def attributesHeaders : List String := ["Scope", "Owner", "Key", "Value"]

/-- Data rows of the Attributes sheet, one per flattened attribute, in
list order. -/
def attributeRows (attrs : List AttributeExport) : List (List Cell) :=
  attrs.map (fun a =>
    [Cell.str a.scope, Cell.str a.owner, Cell.str a.key, Cell.str (safe_str a.value)])

/-- Header row of the ValueTables sheet. -/
def valueTablesHeaders : List String :=
  ["Message", "Signal", "Frame ID (Hex)", "Value", "Text"]

/-- ValueTables rows contributed by one signal: nothing for an empty
choices mapping, otherwise one row per entry sorted by integer key
ascending. -/
def valueTableRowsFor (s : SignalExport) : List (List Cell) :=
  if s.choices.isEmpty then []
  else
    (List.insertionSort (fun a b => a.1 ≤ b.1) s.choices).map
      (fun kv =>
        [Cell.str s.message_name, Cell.str s.name, Cell.str s.message_frame_id_hex,
         Cell.int kv.1, Cell.str kv.2])

/-- All data rows of the ValueTables sheet. -/
def valueTableRows (signals : List SignalExport) : List (List Cell) :=
  signals.foldl (fun acc s => acc ++ valueTableRowsFor s) []

/-! Column autosizing, from autosize_columns in the writer: a single pass
over all rows keeps, per 1-based column index, the maximum stringified
cell length seen; each recorded column then gets width
min(max(len + 2, 10), 60). -/

/-- Association-list lookup for the dims dict. -/
def lookupDim : List (Nat × Nat) → Nat → Option Nat
  | [], _ => Option.none
  | p :: rest, i => if p.1 = i then some p.2 else lookupDim rest i

/-- The dict update dims.idx = max(dims.get(idx, 0), v): an existing key
keeps its position, a new key is appended. -/
def insertMax : List (Nat × Nat) → Nat → Nat → List (Nat × Nat)
  | [], i, v => [(i, v)]
  | p :: rest, i, v =>
    if p.1 = i then (i, max p.2 v) :: rest else p :: insertMax rest i v

/-- The inner enumerate loop of autosize_columns, columns numbered from
idx. -/
def dimsRowAux : List (Nat × Nat) → Nat → List Cell → List (Nat × Nat)
  | d, _, [] => d
  | d, idx, c :: rest => dimsRowAux (insertMax d idx (cellLen c)) (idx + 1) rest

/-- The full dims pass of autosize_columns over every row (1-based column
indices, as enumerate(row, start=1) produces). -/
def autosizeDims (rows : List (List Cell)) : List (Nat × Nat) :=
  rows.foldl (fun d row => dimsRowAux d 1 row) []

/-- The widths autosize_columns assigns: the clamp min(max(w + 2, 10), 60)
applied to every recorded column maximum. -/
def autosizeWidths (rows : List (List Cell)) : List (Nat × Nat) :=
  (autosizeDims rows).map (fun p => (p.1, min (max (p.2 + 2) 10) 60))

/-- Width set for 1-based column i of a sheet, when one is set. -/
def columnWidth (rows : List (List Cell)) (i : Nat) : Option Nat :=
  lookupDim (autosizeWidths rows) i

/-- The cells of 1-based column i, in row order (column indices start at
1, so index 0 has no cells). -/
def colCells (rows : List (List Cell)) (i : Nat) : List Cell :=
  if i = 0 then [] else rows.filterMap (fun r => r.get? (i - 1))

end Dbc2xl

namespace Dbc2xl

/-! The conversion use case, from use_cases/convert.py.  Failure of the
parser is an exception in the source; the embedding returns it in an
Except.  The writer is modelled as a function reporting the output paths
it touches, and execute returns that trace, so that an untouched
filesystem is visible as an empty trace. -/

/-- A parse failure surfaced by the parser collaborator. -/
structure ParseError where
  msg : String
deriving DecidableEq

/-- ConvertDbcToExcelUseCase.execute: run the parser; on failure the error
propagates and the writer is never invoked (empty trace); on success the
writer runs against the export and the output path. -/
def execute (parseFn : String → Option String → Except ParseError DbcExport)
    (writeFn : DbcExport → String → List String)
    (dbc_path xlsx_path : String) (encoding : Option String) :
    Except ParseError Unit × List String :=
  match parseFn dbc_path encoding with
  | .error e => (.error e, [])
  | .ok ex => (.ok (), writeFn ex xlsx_path)

end Dbc2xl

namespace Dbc2xl

/-! Spec-side characterization of hexadecimal rendering, used to state the
frame id formatting claim. -/

/-- A character is an uppercase hexadecimal digit. -/
def isUpperHex (c : Char) : Prop := ('0' ≤ c ∧ c ≤ '9') ∨ ('A' ≤ c ∧ c ≤ 'F')

instance (c : Char) : Decidable (isUpperHex c) := by
  unfold isUpperHex; infer_instance

/-- Numeric value of an uppercase hexadecimal digit character. -/
def hexCharVal (c : Char) : Nat :=
  if 65 ≤ c.toNat then c.toNat - 55 else c.toNat - 48

/-- Value denoted by a most-significant-first hexadecimal digit string. -/
def hexVal (ds : List Char) : Nat :=
  ds.foldl (fun a c => 16 * a + hexCharVal c) 0

theorem hexVal_append (xs : List Char) (c : Char) :
    hexVal (xs ++ [c]) = 16 * hexVal xs + hexCharVal c := by
  simp [hexVal, List.foldl_append]

theorem hexCharVal_hexDigitU : ∀ m, m < 16 → hexCharVal (hexDigitU m) = m := by decide

theorem isUpperHex_hexDigitU : ∀ m, m < 16 → isUpperHex (hexDigitU m) := by decide

theorem hexDigitU_ne_zeroChar : ∀ m, m < 16 → m ≠ 0 → hexDigitU m ≠ '0' := by decide

theorem natToHexAux_zero (fuel : Nat) : natToHexAux fuel 0 = [] := by
  cases fuel <;> rfl

theorem natToHexAux_spec (fuel : Nat) : ∀ n, n ≤ fuel →
    hexVal (natToHexAux fuel n) = n ∧
    (∀ c ∈ natToHexAux fuel n, isUpperHex c) ∧
    (n ≠ 0 → ∃ c cs, natToHexAux fuel n = c :: cs ∧ c ≠ '0') := by
  induction fuel with
  | zero =>
    intro n hn
    have h0 : n = 0 := Nat.le_zero.mp hn
    subst h0
    exact ⟨rfl, by simp [natToHexAux], fun h => absurd rfl h⟩
  | succ fuel ih =>
    intro n hn
    by_cases h0 : n = 0
    · subst h0
      exact ⟨rfl, by simp [natToHexAux], fun h => absurd rfl h⟩
    · have hstep : natToHexAux (fuel + 1) n =
          natToHexAux fuel (n / 16) ++ [hexDigitU (n % 16)] := by
        simp [natToHexAux, h0]
      have hdiv : n / 16 ≤ fuel := by
        have hlt : n / 16 < n := Nat.div_lt_self (Nat.pos_of_ne_zero h0) (by omega)
        omega
      obtain ⟨ihv, ihd, ihh⟩ := ih (n / 16) hdiv
      have hmod : n % 16 < 16 := Nat.mod_lt _ (by omega)
      refine ⟨?_, ?_, ?_⟩
      · rw [hstep, hexVal_append, ihv, hexCharVal_hexDigitU _ hmod]
        omega
      · intro c hc
        rw [hstep] at hc
        rcases List.mem_append.mp hc with h1 | h1
        · exact ihd c h1
        · rcases List.mem_singleton.mp h1 with rfl
          exact isUpperHex_hexDigitU _ hmod
      · intro _
        by_cases hq : n / 16 = 0
        · have hlt : n < 16 := by
            rcases Nat.lt_or_ge n 16 with h | h
            · exact h
            · exact absurd hq (by
                have : 1 ≤ n / 16 := (Nat.le_div_iff_mul_le (by omega)).mpr (by omega)
                omega)
          have hm : n % 16 = n := Nat.mod_eq_of_lt hlt
          refine ⟨hexDigitU (n % 16), [], ?_, ?_⟩
          · rw [hstep, hq, natToHexAux_zero]; rfl
          · rw [hm]; exact hexDigitU_ne_zeroChar n hlt h0
        · obtain ⟨c, cs, hcs, hcne⟩ := ihh hq
          exact ⟨c, cs ++ [hexDigitU (n % 16)], by rw [hstep, hcs]; rfl, hcne⟩

theorem natToHex_spec (n : Nat) :
    hexVal (natToHex n) = n ∧
    (∀ c ∈ natToHex n, isUpperHex c) ∧
    natToHex n ≠ [] ∧
    (n ≠ 0 → (natToHex n).head? ≠ some '0') := by
  by_cases h0 : n = 0
  · subst h0
    exact ⟨by decide, by decide, by decide, fun h => absurd rfl h⟩
  · have hx : natToHex n = natToHexAux n n := by simp [natToHex, h0]
    obtain ⟨hv, hd, hh⟩ := natToHexAux_spec n n le_rfl
    obtain ⟨c, cs, hcs, hcne⟩ := hh h0
    refine ⟨by rw [hx]; exact hv, by rw [hx]; exact hd, ?_, ?_⟩
    · rw [hx, hcs]; simp
    · intro _
      rw [hx, hcs]
      simp only [List.head?_cons]
      intro hcontra
      exact hcne (Option.some.inj hcontra)

end Dbc2xl

namespace Dbc2xl

/-! Claim C1: the adapter maps a list-typed multiplexer-id field with no
int-coercible element to the empty sequence, not to absence; the claim as
stated is refuted and the corrected statement is proved. -/

/-- C1 counterexample: for the signal multiplexer-id field being the list
containing only the non-coercible string foo, the adapter reports
some [] (an empty sequence), not None, so the claim as stated fails at
this input. -/
theorem spec_c1_counterexample :
    pyInt (PyVal.str "foo") = Option.none ∧
    multiplexer_ids (PyVal.list [PyVal.str "foo"]) = some [] ∧
    multiplexer_ids (PyVal.list [PyVal.str "foo"]) ≠ Option.none := by
  refine ⟨by decide, by decide, by decide⟩

/-- C1 (corrected): for a multiplexer-id field that is a list in which no
element coerces to an integer, the adapter reports the empty sequence
(some []); absence (None) is reported only when the field itself is None
or is a non-list scalar that fails coercion. -/
theorem spec_c1 (xs : List PyVal) (h : ∀ x ∈ xs, pyInt x = Option.none) :
    multiplexer_ids (PyVal.list xs) = some [] ∧
    multiplexer_ids PyVal.none = Option.none ∧
    (∀ v : PyVal, (∀ ys, v ≠ PyVal.list ys) → pyInt v = Option.none →
      multiplexer_ids v = Option.none) := by
  refine ⟨?_, rfl, ?_⟩
  · simp only [multiplexer_ids, Option.some.injEq]
    exact List.filterMap_eq_nil_iff.mpr h
  · intro v hv hpi
    cases v with
    | none => rfl
    | int n => simp [pyInt] at hpi
    | bool b => simp [pyInt] at hpi
    | str s => simp [multiplexer_ids, hpi]
    | list ys => exact absurd rfl (hv ys)

/-- C1 witness: the corrected statement evaluated at the concrete
single-element list of the non-coercible string zzz. -/
theorem spec_c1_witness :
    multiplexer_ids (PyVal.list [PyVal.str "zzz"]) = some [] ∧
    multiplexer_ids PyVal.none = Option.none := by
  have h := spec_c1 [PyVal.str "zzz"]
    (by intro x hx; rcases List.mem_singleton.mp hx with rfl; decide)
  exact ⟨h.1, h.2.1⟩

/-- C4: for every non-negative frame id f, frame_id_hex f is 0x followed
by a nonempty string of uppercase hexadecimal digits that denotes f and
carries no leading zero (unless f is zero), and in particular
frame_id_hex 10 is 0xA and frame_id_hex 2048 is 0x800. -/
theorem spec_c4 (f : Int) (h : 0 ≤ f) :
    (∃ ds : List Char, ds ≠ [] ∧ frame_id_hex f = "0x" ++ String.mk ds ∧
      (∀ c ∈ ds, isUpperHex c) ∧ hexVal ds = f.toNat ∧
      (f ≠ 0 → ds.head? ≠ some '0')) ∧
    frame_id_hex 10 = "0xA" ∧ frame_id_hex 2048 = "0x800" := by
  obtain ⟨hv, hd, hne, hh⟩ := natToHex_spec f.toNat
  refine ⟨⟨natToHex f.toNat, hne, ?_, hd, hv, ?_⟩, by decide, by decide⟩
  · unfold frame_id_hex
    rw [if_neg (by omega)]
  · intro hf0
    exact hh (by omega)

/-- C4 witness: the general statement applied at the concrete frame id 10. -/
theorem spec_c4_witness :
    (∃ ds : List Char, ds ≠ [] ∧ frame_id_hex 10 = "0x" ++ String.mk ds ∧
      (∀ c ∈ ds, isUpperHex c) ∧ hexVal ds = (10 : Int).toNat ∧
      ((10 : Int) ≠ 0 → ds.head? ≠ some '0')) ∧
    frame_id_hex 10 = "0xA" ∧ frame_id_hex 2048 = "0x800" :=
  spec_c4 10 (by decide)

/-- C5: a boolean-like field whose underlying type is not bool is
normalized to unknown (none), never to false; the writer renders true as
Yes, false as No and unknown as a blank cell; and the parse adapter
applies exactly this normalization to the extended-frame, signed, float
and is-multiplexer fields. -/
theorem spec_c5 (v : PyVal) (h : ∀ b, v ≠ PyVal.bool b) :
    coerceBool v = Option.none ∧
    bool_str (coerceBool v) = "" ∧
    bool_str (some true) = "Yes" ∧ bool_str (some false) = "No" ∧
    bool_str Option.none = "" ∧
    (∀ m : RawMessage,
      (parseMessage m).is_extended_frame = coerceBool m.is_extended_frame) ∧
    (∀ (mn : String) (fid : Int) (s : RawSignal),
      (parseSignal mn fid s).is_signed = coerceBool s.is_signed ∧
      (parseSignal mn fid s).is_float = coerceBool s.is_float ∧
      (parseSignal mn fid s).is_multiplexer = coerceBool s.is_multiplexer) := by
  have hc : coerceBool v = Option.none := by
    cases v with
    | bool b => exact absurd rfl (h b)
    | none => rfl
    | int n => rfl
    | str s => rfl
    | list xs => rfl
  exact ⟨hc, by rw [hc]; rfl, rfl, rfl, rfl, fun m => rfl,
    fun mn fid s => ⟨rfl, rfl, rfl⟩⟩

/-- C5 witness: the statement evaluated at the non-boolean value int 1,
which Python would treat as truthy but the adapter reports as unknown. -/
theorem spec_c5_witness :
    coerceBool (PyVal.int 1) = Option.none ∧
    bool_str (coerceBool (PyVal.int 1)) = "" := by
  have h := spec_c5 (PyVal.int 1) (fun b hb => PyVal.noConfusion hb)
  exact ⟨h.1, h.2.1⟩

/-- C9: when the parser collaborator fails, the use case propagates that
failure to the caller unchanged and the writer is never invoked, so the
trace of touched output paths is empty. -/
theorem spec_c9 (parseFn : String → Option String → Except ParseError DbcExport)
    (writeFn : DbcExport → String → List String)
    (dbc xlsx : String) (enc : Option String) (e : ParseError)
    (h : parseFn dbc enc = .error e) :
    execute parseFn writeFn dbc xlsx enc = (.error e, []) := by
  simp [execute, h]

/-- C9 witness: a concrete always-failing parser with a writer that would
touch the output path; execute propagates the error and touches nothing. -/
theorem spec_c9_witness :
    execute (fun _ _ => Except.error ⟨"malformed"⟩) (fun _ p => [p])
      "in.dbc" "out.xlsx" Option.none = (Except.error ⟨"malformed"⟩, []) :=
  spec_c9 _ _ _ _ _ _ rfl

end Dbc2xl

namespace Dbc2xl

/-! Closed-form characterization of the accumulating loops of parse, used
by the shape, referential-integrity and ordering claims. -/

theorem parseSignal_name (mn : String) (fid : Int) (s : RawSignal) :
    (parseSignal mn fid s).name = s.name := rfl

theorem parseSignal_attributes (mn : String) (fid : Int) (s : RawSignal) :
    (parseSignal mn fid s).attributes = get_attributes s.attributes := rfl

theorem processSignal_foldl (mn : String) (fid : Int) :
    ∀ (ss : List RawSignal) (sigs : List SignalExport) (attrs : List AttributeExport),
    ss.foldl (processSignal mn fid) (sigs, attrs) =
      (sigs ++ ss.map (parseSignal mn fid),
       attrs ++ ss.flatMap (fun s =>
         signalAttrExports mn s.name (get_attributes s.attributes))) := by
  intro ss
  induction ss with
  | nil => intro sigs attrs; simp
  | cons s rest ih =>
    intro sigs attrs
    simp only [List.foldl_cons, processSignal]
    rw [ih]
    simp [parseSignal_name, parseSignal_attributes, List.append_assoc]

/-- The attribute block one message contributes: its own flattened
attributes, then its signals' flattened attributes in signal order. -/
def messageAttrBlock (m : RawMessage) : List AttributeExport :=
  messageAttrExports m.name (get_attributes m.attributes) ++
    m.signals.flatMap (fun s =>
      signalAttrExports m.name s.name (get_attributes s.attributes))

theorem processMessage_foldl :
    ∀ (ms : List RawMessage) (msgs : List MessageExport)
      (sigs : List SignalExport) (attrs : List AttributeExport),
    ms.foldl processMessage (msgs, sigs, attrs) =
      (msgs ++ ms.map parseMessage,
       sigs ++ ms.flatMap (fun m => m.signals.map (parseSignal m.name m.frame_id)),
       attrs ++ ms.flatMap messageAttrBlock) := by
  intro ms
  induction ms with
  | nil => intro msgs sigs attrs; simp
  | cons m rest ih =>
    intro msgs sigs attrs
    simp only [List.foldl_cons, processMessage]
    rw [processSignal_foldl, ih]
    simp [messageAttrBlock, List.append_assoc]

theorem foldl_nodeAttrExports :
    ∀ (ns : List NodeExport) (a : List AttributeExport),
    ns.foldl (fun a n => a ++ nodeAttrExports n) a = a ++ ns.flatMap nodeAttrExports := by
  intro ns
  induction ns with
  | nil => intro a; simp
  | cons n rest ih =>
    intro a
    simp only [List.foldl_cons, List.flatMap_cons]
    rw [ih]
    simp [List.append_assoc]

theorem parse_eq (db : RawDb) :
    parse db =
      { nodes := db.nodes.map parseNode
        messages := db.messages.map parseMessage
        signals := db.messages.flatMap
          (fun m => m.signals.map (parseSignal m.name m.frame_id))
        attributes := db.messages.flatMap messageAttrBlock ++
          (db.nodes.map parseNode).flatMap nodeAttrExports } := by
  unfold parse
  rw [processMessage_foldl]
  simp [foldl_nodeAttrExports]

end Dbc2xl

namespace Dbc2xl

theorem sum_map_add {α : Type} (l : List α) (f g : α → Nat) :
    (l.map (fun x => f x + g x)).sum = (l.map f).sum + (l.map g).sum := by
  induction l with
  | nil => rfl
  | cons x rest ih => simp [ih]; omega

theorem sum_flatMap_nat {α : Type} (l : List α) (f : α → List Nat) :
    (l.flatMap f).sum = (l.map (fun x => (f x).sum)).sum := by
  induction l with
  | nil => rfl
  | cons x rest ih => simp [List.flatMap_cons, List.sum_append, ih]

/-- C2: the Export produced by parse has exactly one NodeExport per parsed
node, one MessageExport per parsed message, one SignalExport per parsed
signal, and one AttributeExport per entry of the attribute mappings of all
nodes, messages and signals together. -/
theorem spec_c2 (db : RawDb) :
    (parse db).nodes.length = db.nodes.length ∧
    (parse db).messages.length = db.messages.length ∧
    (parse db).signals.length = (db.messages.map (fun m => m.signals.length)).sum ∧
    (parse db).attributes.length =
      ((parse db).nodes.map (fun n => n.attributes.length)).sum +
      ((parse db).messages.map (fun m => m.attributes.length)).sum +
      ((parse db).signals.map (fun s => s.attributes.length)).sum := by
  rw [parse_eq]
  refine ⟨by simp, by simp, by simp [Function.comp_def], ?_⟩
  simp only [List.length_append, List.length_flatMap, Function.comp_def,
    List.map_map, List.map_flatMap, messageAttrBlock, messageAttrExports,
    signalAttrExports, nodeAttrExports, parseNode, parseMessage, parseSignal,
    List.length_map]
  rw [sum_map_add, sum_flatMap_nat]
  omega

/-- C3: every SignalExport in a parsed Export carries the name, frame id
and hex frame id of some MessageExport of the same Export. -/
theorem spec_c3 (db : RawDb) (sig : SignalExport)
    (h : sig ∈ (parse db).signals) :
    ∃ msg ∈ (parse db).messages,
      msg.name = sig.message_name ∧
      msg.frame_id = sig.message_frame_id ∧
      msg.frame_id_hex = sig.message_frame_id_hex := by
  rw [parse_eq] at h ⊢
  simp only [List.mem_flatMap, List.mem_map] at h
  obtain ⟨m, hm, s, _, rfl⟩ := h
  refine ⟨parseMessage m, ?_, rfl, rfl, rfl⟩
  simp only [List.mem_map]
  exact ⟨m, hm, rfl⟩

end Dbc2xl

namespace Dbc2xl

/-! A concrete network: one node ECU1, one message EngineData (frame id
0x100, length 8, sender ECU1, no cycle time, no comment, no attributes)
with one signal RPM.  Used as the end-to-end scenario input and as the
evaluation input of several witnesses. -/

def exRawRPM : RawSignal :=
  { name := "RPM", start := 0, length := 16,
    byte_order := PyVal.str "little_endian",
    is_signed := PyVal.bool false, is_float := PyVal.bool false,
    scale := PyVal.str "0.25", offset := PyVal.int 0,
    minimum := PyVal.none, maximum := PyVal.none, unit := PyVal.str "rpm",
    receivers := PyVal.list [], comment := PyVal.none,
    is_multiplexer := PyVal.bool false, multiplexer_ids := PyVal.none,
    multiplexer_signal := Option.none,
    choices := PyDict.notDict, attributes := PyDict.notDict }

def exEngineData : RawMessage :=
  { frame_id := 256, name := "EngineData", is_extended_frame := PyVal.none,
    cycle_time := PyVal.none, senders := PyVal.list [PyVal.str "ECU1"],
    length := 8, comment := PyVal.none, attributes := PyDict.notDict,
    signals := [exRawRPM] }

def exDb : RawDb :=
  { nodes := [{ name := "ECU1", comment := PyVal.none, attributes := PyDict.notDict }],
    messages := [exEngineData] }

/-- C3 witness: the referential-integrity statement evaluated on the
concrete one-message network. -/
theorem spec_c3_witness :
    parseSignal "EngineData" 256 exRawRPM ∈ (parse exDb).signals ∧
    ∃ msg ∈ (parse exDb).messages,
      msg.name = (parseSignal "EngineData" 256 exRawRPM).message_name ∧
      msg.frame_id = (parseSignal "EngineData" 256 exRawRPM).message_frame_id ∧
      msg.frame_id_hex = (parseSignal "EngineData" 256 exRawRPM).message_frame_id_hex := by
  have hmem : parseSignal "EngineData" 256 exRawRPM ∈ (parse exDb).signals := by
    rw [parse_eq]
    simp only [exDb, exEngineData, List.flatMap_cons, List.flatMap_nil,
      List.map_cons, List.map_nil, List.append_nil]
    exact List.mem_singleton.mpr rfl
  exact ⟨hmem, spec_c3 exDb _ hmem⟩

/-- C10: the flattened attribute list of a parsed Export is, in order: for
each message in source order its own attributes (scope message, owner the
message name, source key order) followed by its signals' attributes (scope
signal, owner Message.Signal), and after all messages the node attributes
(scope node); the Attributes sheet renders these rows in exactly that
order. -/
theorem spec_c10 (db : RawDb) :
    (parse db).attributes =
      db.messages.flatMap (fun m =>
        (get_attributes m.attributes).map (fun kv =>
          { scope := "message", owner := m.name, key := kv.1, value := kv.2 }) ++
        m.signals.flatMap (fun s =>
          (get_attributes s.attributes).map (fun kv =>
            { scope := "signal", owner := m.name ++ "." ++ s.name,
              key := kv.1, value := kv.2 }))) ++
      db.nodes.flatMap (fun n =>
        (get_attributes n.attributes).map (fun kv =>
          { scope := "node", owner := n.name, key := kv.1, value := kv.2 })) ∧
    attributeRows (parse db).attributes =
      ((parse db).attributes).map (fun a =>
        [Cell.str a.scope, Cell.str a.owner, Cell.str a.key,
         Cell.str (safe_str a.value)]) := by
  refine ⟨?_, rfl⟩
  rw [parse_eq]
  show _ ++ (db.nodes.map parseNode).flatMap nodeAttrExports = _
  rw [List.flatMap_map]
  rfl

end Dbc2xl

namespace Dbc2xl

instance : IsTotal (Int × String) (fun a b => a.1 ≤ b.1) :=
  ⟨fun a b => Int.le_total a.1 b.1⟩

instance : IsTrans (Int × String) (fun a b => a.1 ≤ b.1) :=
  ⟨fun _ _ _ h1 h2 => le_trans h1 h2⟩

theorem foldl_append_flatMap {α β : Type} (f : α → List β) :
    ∀ (l : List α) (a : List β),
    l.foldl (fun acc x => acc ++ f x) a = a ++ l.flatMap f := by
  intro l
  induction l with
  | nil => intro a; simp
  | cons x rest ih =>
    intro a
    simp only [List.foldl_cons, List.flatMap_cons]
    rw [ih]
    simp [List.append_assoc]

/-- A signal with an empty choices mapping, for evaluating the zero-rows
case. -/
def exEmptyChoicesSig : SignalExport :=
  { message_name := "Motor", message_frame_id := 1, message_frame_id_hex := "0x1",
    name := "Idle", start := 0, length := 1, byte_order := Option.none,
    is_signed := Option.none, is_float := Option.none, factor := PyVal.none,
    offset := PyVal.none, minimum := PyVal.none, maximum := PyVal.none,
    unit := PyVal.none, receivers := [], comment := Option.none,
    is_multiplexer := Option.none, multiplexer_ids := Option.none,
    multiplexer_signal := Option.none, choices := [], attributes := [] }

/-- A signal whose choices mapping is 0 mapped to Off and 1 mapped to On,
stored in reversed order so the sort is exercised. -/
def exChoicesSig : SignalExport :=
  { exEmptyChoicesSig with name := "Mode", choices := [(1, "On"), (0, "Off")] }

/-- C6: a signal with empty choices contributes zero ValueTables rows; a
signal with non-empty choices contributes exactly one row per choice
entry, the rows being the choice entries in ascending key order with
columns Message, Signal, Frame ID (Hex), Value, Text; the sheet is the
concatenation of the per-signal blocks; and the Off/On example yields
exactly its two rows value-ascending. -/
theorem spec_c6 (s : SignalExport) (signals : List SignalExport) :
    (s.choices = [] → valueTableRowsFor s = []) ∧
    (valueTableRowsFor s).length = s.choices.length ∧
    (∃ cs : List (Int × String), cs.Perm s.choices ∧
      cs.Pairwise (fun a b => a.1 ≤ b.1) ∧
      valueTableRowsFor s = cs.map (fun kv =>
        [Cell.str s.message_name, Cell.str s.name, Cell.str s.message_frame_id_hex,
         Cell.int kv.1, Cell.str kv.2])) ∧
    valueTableRows signals = signals.flatMap valueTableRowsFor ∧
    valueTableRowsFor exChoicesSig =
      [[Cell.str "Motor", Cell.str "Mode", Cell.str "0x1", Cell.int 0, Cell.str "Off"],
       [Cell.str "Motor", Cell.str "Mode", Cell.str "0x1", Cell.int 1, Cell.str "On"]] ∧
    valueTablesHeaders = ["Message", "Signal", "Frame ID (Hex)", "Value", "Text"] := by
  refine ⟨?_, ?_, ?_, ?_, by decide, rfl⟩
  · intro h
    simp [valueTableRowsFor, h]
  · by_cases h : s.choices.isEmpty
    · simp [valueTableRowsFor, h, List.isEmpty_iff.mp h]
    · simp [valueTableRowsFor, h, List.length_insertionSort]
  · refine ⟨List.insertionSort (fun a b => a.1 ≤ b.1) s.choices,
      List.perm_insertionSort _ _, List.sorted_insertionSort _ _, ?_⟩
    by_cases h : s.choices.isEmpty
    · have h0 : s.choices = [] := List.isEmpty_iff.mp h
      simp [valueTableRowsFor, h, h0]
    · simp [valueTableRowsFor, h]
  · exact foldl_append_flatMap valueTableRowsFor signals []

/-- C6 witness: the empty-choices case and the two-entry case evaluated on
the concrete example signals. -/
theorem spec_c6_witness :
    valueTableRowsFor exEmptyChoicesSig = [] ∧
    (valueTableRowsFor exChoicesSig).length = 2 := by
  refine ⟨(spec_c6 exEmptyChoicesSig []).1 rfl, ?_⟩
  rw [(spec_c6 exChoicesSig []).2.1]
  rfl

/-- C8: the one-node one-message scenario network yields a Messages sheet
with exactly one data row, EngineData, 0x100, 256, blank extended-frame,
8, blank cycle time, ECU1, blank comment, blank attributes; and in general
an absent cycle time renders as an empty cell, not as 0 or None. -/
theorem spec_c8 :
    messageRows (parse exDb).messages =
      [[Cell.str "EngineData", Cell.str "0x100", Cell.int 256, Cell.str "",
        Cell.int 8, Cell.str "", Cell.str "ECU1", Cell.str "", Cell.str ""]] ∧
    (∀ m : MessageExport, m.cycle_time_ms = Option.none →
      (messageRow m)[5]? = some (Cell.str "")) := by
  constructor
  · decide
  · intro m hm
    simp [messageRow, hm]

/-- C8 witness: the cycle-time conjunct evaluated at the concrete
EngineData MessageExport, whose cycle time is absent. -/
theorem spec_c8_witness :
    (messageRow (parseMessage exEngineData))[5]? = some (Cell.str "") :=
  (spec_c8).2 (parseMessage exEngineData) rfl

end Dbc2xl

namespace Dbc2xl

theorem lookupDim_insertMax :
    ∀ (d : List (Nat × Nat)) (i v j : Nat),
    lookupDim (insertMax d i v) j =
      if j = i then some (max ((lookupDim d i).getD 0) v) else lookupDim d j := by
  intro d
  induction d with
  | nil =>
    intro i v j
    simp only [insertMax, lookupDim]
    by_cases h : j = i
    · rw [if_pos (by omega : i = j), if_pos h]
      simp
    · rw [if_neg (by omega : ¬ i = j), if_neg h]
  | cons p rest ih =>
    intro i v j
    by_cases hpi : p.1 = i
    · rw [show insertMax (p :: rest) i v = (i, max p.2 v) :: rest by
        simp [insertMax, hpi]]
      by_cases hji : j = i
      · simp only [lookupDim]
        rw [if_pos (by omega : i = j), if_pos hji, if_pos hpi]
        rfl
      · simp only [lookupDim]
        rw [if_neg (by omega : ¬ i = j), if_neg hji, if_neg (by omega : ¬ p.1 = j)]
    · rw [show insertMax (p :: rest) i v = p :: insertMax rest i v by
        simp [insertMax, hpi]]
      by_cases hji : j = i
      · simp only [lookupDim]
        rw [if_neg (by omega : ¬ p.1 = j), if_pos hji, if_neg hpi]
        rw [ih i v j, if_pos hji]
      · simp only [lookupDim]
        rw [if_neg hji]
        by_cases hpj : p.1 = j
        · rw [if_pos hpj, if_pos hpj]
        · rw [if_neg hpj, if_neg hpj, ih i v j, if_neg hji]

theorem lookupDim_dimsRowAux_lt :
    ∀ (row : List Cell) (d : List (Nat × Nat)) (idx j : Nat), j < idx →
    lookupDim (dimsRowAux d idx row) j = lookupDim d j := by
  intro row
  induction row with
  | nil => intro d idx j _; rfl
  | cons c rest ih =>
    intro d idx j hj
    show lookupDim (dimsRowAux (insertMax d idx (cellLen c)) (idx + 1) rest) j = _
    rw [ih _ (idx + 1) j (by omega), lookupDim_insertMax, if_neg (by omega)]

theorem lookupDim_dimsRowAux_none :
    ∀ (row : List Cell) (d : List (Nat × Nat)) (idx j : Nat), idx ≤ j →
    row.get? (j - idx) = Option.none →
    lookupDim (dimsRowAux d idx row) j = lookupDim d j := by
  intro row
  induction row with
  | nil => intro d idx j _ _; rfl
  | cons c rest ih =>
    intro d idx j hij hget
    have hne : j ≠ idx := by
      intro h
      rw [h, Nat.sub_self] at hget
      simp [List.get?] at hget
    have hgt : idx + 1 ≤ j := by omega
    have hget2 : rest.get? (j - (idx + 1)) = Option.none := by
      have : j - idx = (j - (idx + 1)) + 1 := by omega
      rw [this] at hget
      exact hget
    show lookupDim (dimsRowAux (insertMax d idx (cellLen c)) (idx + 1) rest) j = _
    rw [ih _ (idx + 1) j hgt hget2, lookupDim_insertMax, if_neg hne]

theorem lookupDim_dimsRowAux_some :
    ∀ (row : List Cell) (d : List (Nat × Nat)) (idx j : Nat) (c : Cell), idx ≤ j →
    row.get? (j - idx) = some c →
    lookupDim (dimsRowAux d idx row) j =
      some (max ((lookupDim d j).getD 0) (cellLen c)) := by
  intro row
  induction row with
  | nil => intro d idx j c _ hget; simp [List.get?] at hget
  | cons c0 rest ih =>
    intro d idx j c hij hget
    show lookupDim (dimsRowAux (insertMax d idx (cellLen c0)) (idx + 1) rest) j = _
    by_cases hji : j = idx
    · have hc : c0 = c := by
        rw [hji, Nat.sub_self] at hget
        simpa [List.get?] using hget
      subst hc
      rw [lookupDim_dimsRowAux_lt rest _ (idx + 1) j (by omega),
        lookupDim_insertMax, if_pos hji, hji]
    · have hgt : idx + 1 ≤ j := by omega
      have hget2 : rest.get? (j - (idx + 1)) = some c := by
        have : j - idx = (j - (idx + 1)) + 1 := by omega
        rw [this] at hget
        exact hget
      rw [ih _ (idx + 1) j c hgt hget2, lookupDim_insertMax, if_neg hji]

end Dbc2xl

namespace Dbc2xl

/-- The maximum stringified cell length of 1-based column i over all rows
(0 when the column has no cells), the quantity the dims pass accumulates. -/
def colMaxLen (rows : List (List Cell)) (i : Nat) : Nat :=
  ((colCells rows i).map cellLen).foldl max 0

theorem colCells_nil (j : Nat) : colCells [] j = [] := by
  simp [colCells]

theorem colCells_cons (row : List Cell) (rest : List (List Cell)) (j : Nat)
    (h : j ≠ 0) :
    colCells (row :: rest) j =
      (match row.get? (j - 1) with
       | some c => c :: colCells rest j
       | Option.none => colCells rest j) := by
  simp only [colCells, if_neg h, List.filterMap_cons]
  cases row.get? (j - 1) <;> rfl

theorem foldl_max_comm :
    ∀ (l : List Nat) (a b : Nat), l.foldl max (max a b) = max a (l.foldl max b) := by
  intro l
  induction l with
  | nil => intro a b; rfl
  | cons c rest ih =>
    intro a b
    show rest.foldl max (max (max a b) c) = max a (rest.foldl max (max b c))
    rw [Nat.max_assoc, ih a (max b c)]

theorem le_foldl_max_self : ∀ (l : List Nat) (a : Nat), a ≤ l.foldl max a := by
  intro l
  induction l with
  | nil => intro a; exact Nat.le_refl a
  | cons c rest ih =>
    intro a
    calc a ≤ max a c := Nat.le_max_left a c
    _ ≤ rest.foldl max (max a c) := ih (max a c)

theorem foldl_max_le_of_mem :
    ∀ (l : List Nat) (a x : Nat), x ∈ l → x ≤ l.foldl max a := by
  intro l
  induction l with
  | nil => intro a x hx; simp at hx
  | cons c rest ih =>
    intro a x hx
    simp only [List.foldl_cons]
    rcases List.mem_cons.mp hx with rfl | hx
    · calc x ≤ max a x := Nat.le_max_right a x
      _ ≤ rest.foldl max (max a x) := le_foldl_max_self rest (max a x)
    · exact ih (max a c) x hx

theorem foldl_max_cases :
    ∀ (l : List Nat) (a : Nat), l.foldl max a = a ∨ l.foldl max a ∈ l := by
  intro l
  induction l with
  | nil => intro a; exact Or.inl rfl
  | cons c rest ih =>
    intro a
    simp only [List.foldl_cons]
    rcases ih (max a c) with h | h
    · rcases Nat.le_total a c with hac | hca
      · exact Or.inr (List.mem_cons.mpr (Or.inl (by rw [h]; omega)))
      · exact Or.inl (by rw [h]; omega)
    · exact Or.inr (List.mem_cons.mpr (Or.inr h))

end Dbc2xl

namespace Dbc2xl

theorem lookupDim_foldl_rows :
    ∀ (rows : List (List Cell)) (d : List (Nat × Nat)) (j : Nat),
    lookupDim (rows.foldl (fun d row => dimsRowAux d 1 row) d) j =
      if colCells rows j = [] then lookupDim d j
      else some (max ((lookupDim d j).getD 0) (colMaxLen rows j)) := by
  intro rows
  induction rows with
  | nil => intro d j; simp [colCells_nil]
  | cons row rest ih =>
    intro d j
    simp only [List.foldl_cons]
    by_cases hj0 : j = 0
    · subst hj0
      rw [ih (dimsRowAux d 1 row) 0]
      have e0 : colCells rest 0 = [] := by simp [colCells]
      have e1 : colCells (row :: rest) 0 = [] := by simp [colCells]
      rw [if_pos e0, if_pos e1, lookupDim_dimsRowAux_lt row d 1 0 (by omega)]
    · have h1j : 1 ≤ j := by omega
      cases hrow : row.get? (j - 1) with
      | none =>
        have hcc : colCells (row :: rest) j = colCells rest j := by
          rw [colCells_cons row rest j hj0, hrow]
        have hlk : lookupDim (dimsRowAux d 1 row) j = lookupDim d j :=
          lookupDim_dimsRowAux_none row d 1 j h1j hrow
        have hcm : colMaxLen (row :: rest) j = colMaxLen rest j := by
          simp [colMaxLen, hcc]
        rw [ih (dimsRowAux d 1 row) j, hcc, hlk, hcm]
      | some c =>
        have hcc : colCells (row :: rest) j = c :: colCells rest j := by
          rw [colCells_cons row rest j hj0, hrow]
        have hlk : lookupDim (dimsRowAux d 1 row) j =
            some (max ((lookupDim d j).getD 0) (cellLen c)) :=
          lookupDim_dimsRowAux_some row d 1 j c h1j hrow
        have hcm : colMaxLen (row :: rest) j = max (cellLen c) (colMaxLen rest j) := by
          simp only [colMaxLen, hcc, List.map_cons, List.foldl_cons, Nat.zero_max]
          conv_lhs => rw [← Nat.max_zero (cellLen c)]
          rw [foldl_max_comm]
        rw [ih (dimsRowAux d 1 row) j, hlk, hcc, hcm,
          if_neg (by simp : ¬ (c :: colCells rest j) = ([] : List Cell))]
        by_cases hrest : colCells rest j = []
        · rw [if_pos hrest]
          have : colMaxLen rest j = 0 := by simp [colMaxLen, hrest]
          rw [this, Nat.max_zero]
        · rw [if_neg hrest]
          simp only [Option.getD_some]
          rw [Nat.max_assoc]

theorem lookupDim_autosizeDims (rows : List (List Cell)) (j : Nat) :
    lookupDim (autosizeDims rows) j =
      if colCells rows j = [] then Option.none else some (colMaxLen rows j) := by
  unfold autosizeDims
  rw [lookupDim_foldl_rows]
  by_cases h : colCells rows j = [] <;> simp [h, lookupDim]

theorem lookupDim_autosizeWidths (rows : List (List Cell)) (j : Nat) :
    lookupDim (autosizeWidths rows) j =
      (lookupDim (autosizeDims rows) j).map (fun v => min (max (v + 2) 10) 60) := by
  unfold autosizeWidths
  generalize autosizeDims rows = d
  induction d with
  | nil => rfl
  | cons p rest ih =>
    by_cases h : p.1 = j <;> simp [lookupDim, h, ih]

/-- C7: whenever the writer sets a width for a column, that width is
min(max(M + 2, 10), 60) where M is the maximum stringified content length
over the cells of that column (an upper bound that is attained unless the
column is all-empty), so the width carries a 2-character pad and is
clamped between 10 and 60; and every populated column gets a width set. -/
theorem spec_c7 (rows : List (List Cell)) (i : Nat) :
    (∀ w, columnWidth rows i = some w →
      ∃ M, (∀ c ∈ colCells rows i, cellLen c ≤ M) ∧
        (M = 0 ∨ ∃ c ∈ colCells rows i, cellLen c = M) ∧
        w = min (max (M + 2) 10) 60 ∧ 10 ≤ w ∧ w ≤ 60) ∧
    (colCells rows i ≠ [] → ∃ w, columnWidth rows i = some w) := by
  constructor
  · intro w hw
    unfold columnWidth at hw
    rw [lookupDim_autosizeWidths, lookupDim_autosizeDims] at hw
    by_cases h : colCells rows i = []
    · rw [if_pos h] at hw
      exact absurd hw (by simp)
    · rw [if_neg h] at hw
      simp only [Option.map_some'] at hw
      have hw2 : w = min (max (colMaxLen rows i + 2) 10) 60 :=
        (Option.some.inj hw).symm
      refine ⟨colMaxLen rows i, ?_, ?_, hw2, by rw [hw2]; omega, by rw [hw2]; omega⟩
      · intro c hc
        exact foldl_max_le_of_mem _ 0 (cellLen c)
          (List.mem_map.mpr ⟨c, hc, rfl⟩)
      · rcases foldl_max_cases ((colCells rows i).map cellLen) 0 with hz | hm
        · exact Or.inl hz
        · rcases List.mem_map.mp hm with ⟨c, hc, hcl⟩
          exact Or.inr ⟨c, hc, hcl⟩
  · intro h
    unfold columnWidth
    rw [lookupDim_autosizeWidths, lookupDim_autosizeDims, if_neg h]
    exact ⟨_, rfl⟩

/-- C7 witness: a one-cell sheet whose only column gets width 10, the
floor, since the content length 4 plus the pad is below 10. -/
theorem spec_c7_witness :
    colCells [[Cell.str "abcd"]] 1 ≠ [] ∧
    (∃ w, columnWidth [[Cell.str "abcd"]] 1 = some w) ∧
    (∃ M, (∀ c ∈ colCells [[Cell.str "abcd"]] 1, cellLen c ≤ M) ∧
      (M = 0 ∨ ∃ c ∈ colCells [[Cell.str "abcd"]] 1, cellLen c = M) ∧
      10 = min (max (M + 2) 10) 60 ∧ 10 ≤ 10 ∧ 10 ≤ 60) := by
  have h := spec_c7 [[Cell.str "abcd"]] 1
  exact ⟨by decide, h.2 (by decide), h.1 10 (by decide)⟩

end Dbc2xl
